import Mathlib

/-!
# Verification of the task state manager (`src/hooks/useTasks.ts`)

Shallow embedding of the task state manager: the task normalizer
(`normalizeTasks`), the mutation engine (`addTask`, `updateTask`),
the delete/undo protocol (`deleteTask`, `undoDelete`, `clearLastDeleted`)
and the load coordinator (the module-scoped `tasksFetchPromise` cache).

Modelling conventions:
* ISO timestamps are modelled as integer epoch milliseconds (`Int`).
  `new Date(x).toISOString()` is injective on valid instants, so equality of
  ISO strings coincides with equality of the integers; `Date.now()` is the
  `now : Int` parameter threaded into each operation that reads the clock.
* JavaScript numbers are modelled as `Int`; a field whose `Number(...)`
  coercion is not finite (`NaN`, `±Infinity`, absent) is modelled as `none`.
* An optional string field is `Option String`; the JS truthiness test
  `x || d` is `jsOrStr`, which treats both `none` (undefined) and
  `some ""` (empty string) as falsy.
* `crypto.randomUUID()` is a fresh-value supply: the state carries a
  counter `fresh`, and `freshTok n` / `freshId n` are injective functions
  of it, mirroring the spec's "monotonic deletion epoch" reading of the
  token.  Tokens are nonempty strings, as `randomUUID` always returns one.
* A `Partial<Task>` patch is a record of `Option` fields where `none`
  means "key absent from the patch object"; a present key carries a value
  of the field's type (patches are well-typed partial objects).
-/

namespace UseTasks

/-- A normalized task, from the `Task` shape used by `useTasks.ts`. -/
structure Task where
  id : String
  title : String
  revenue : Int
  timeTaken : Int
  priority : String
  status : String
  notes : String
  createdAt : Int
  completedAt : Option Int
deriving Repr, DecidableEq

/-- A raw record as consumed by `normalizeTasks`, restricted to the
NON-THROWING fragment: every field possibly absent or malformed.
`revenue`/`timeTaken` are `none` when `Number(field)` is not finite;
`createdAt`/`completedAt` are `none` when the field is falsy; string
fields keep an explicit `some ""` so that JS truthiness defaults can be
modelled.  A truthy but unparseable `createdAt` (an Invalid Date, on
which the real normalizer throws) is NOT representable here; that case is
carried by `RawRecord` and the `Except`-valued `normalizeOneE` below,
and `normalizeTasksE_agrees` shows this total model coincides with the
fallible one on every record that does not throw.  (A truthy
`completedAt` is copied verbatim and never parsed, so it cannot throw;
only its presence is ever observed.) -/
structure RawTask where
  id : Option String := none
  title : Option String := none
  revenue : Option Int := none
  timeTaken : Option Int := none
  priority : Option String := none
  status : Option String := none
  notes : Option String := none
  createdAt : Option Int := none
  completedAt : Option Int := none
deriving Repr, DecidableEq

/-- A `Partial<Task>` patch as passed to `updateTask`: `none` = key absent. -/
structure TaskPatch where
  id : Option String := none
  title : Option String := none
  revenue : Option Int := none
  timeTaken : Option Int := none
  priority : Option String := none
  status : Option String := none
  notes : Option String := none
  createdAt : Option Int := none
  completedAt : Option Int := none
deriving Repr, DecidableEq

/-- The argument of `addTask`: `Omit<Task, 'id' | 'createdAt'> & { id?: string }`. -/
structure NewTask where
  id : Option String := none
  title : String := ""
  revenue : Int := 0
  timeTaken : Int := 1
  priority : String := "Low"
  status : String := "Todo"
  notes : String := ""
  completedAt : Option Int := none
deriving Repr, DecidableEq

/-- JS `x || d` on an optional string: `undefined` and `""` are falsy. -/
def jsOrStr (o : Option String) (d : String) : String :=
  match o with
  | none => d
  | some s => if s = "" then d else s

/-- One day in milliseconds, the literal `24 * 3600 * 1000` of the source. -/
def dayMs : Int := 24 * 3600 * 1000

/-- The body of the `.map((t, idx) => ...)` callback of `normalizeTasks`,
on the non-throwing fragment (`RawTask`); the failure path of
`created.toISOString()` on an Invalid Date is made explicit in
`normalizeOneE` below.  `crypto.randomUUID()` for a missing id is
modelled as a fresh id derived from the record's index (id values
generated this way are opaque and never compared by the claims). -/
def normalizeOne (now : Int) (idx : Nat) (t : RawTask) : Task :=
  let created := t.createdAt.getD (now - ((idx : Int) + 1) * dayMs)
  let completed :=
    match t.completedAt with
    | some c => some c
    | none => if t.status = some "Done" then some (created + dayMs) else none
  { id := t.id.getD ("norm-" ++ toString idx),
    title := jsOrStr t.title "Untitled",
    revenue := t.revenue.getD 0,
    timeTaken := match t.timeTaken with
      | some v => if v > 0 then v else 1
      | none => 1,
    priority := jsOrStr t.priority "Low",
    status := jsOrStr t.status "Todo",
    notes := jsOrStr t.notes "",
    createdAt := created,
    completedAt := completed }

/-- `.map((t, idx) => ...)` with the running index made explicit. -/
def normalizeFrom (now : Int) (idx : Nat) : List RawTask → List Task
  | [] => []
  | t :: rest => normalizeOne now idx t :: normalizeFrom now (idx + 1) rest

/-- `normalizeTasks(input)`: a non-array input (`none`) is treated as `[]`
(`Array.isArray(input) ? input : []`), then each record is normalized. -/
def normalizeTasks (now : Int) (input : Option (List RawTask)) : List Task :=
  normalizeFrom now 0 (input.getD [])

/-- Modelled from the spec: `generateSalesTasks` from `@/utils/seed` is not
part of the repository snapshot (only its import and call site are).  The
spec describes it as a pure function producing `n` synthetic Task-shaped
records, used only as the fallback batch; we model it as `n` well-formed
tasks. -/
def generateSalesTasks (n : Nat) : List Task :=
  (List.range n).map (fun i =>
    { id := "seed-" ++ toString i,
      title := "Sales Task " ++ toString i,
      revenue := 100,
      timeTaken := 1,
      priority := "Low",
      status := "Todo",
      notes := "",
      createdAt := 0 - ((i : Int) + 1) * dayMs,
      completedAt := none })

/-- The successful branch of the cached fetch: normalize the fetched data,
and substitute the 50-record fallback batch when normalization yields zero
records (`normalized.length > 0 ? normalized : generateSalesTasks(50)`). -/
def loadResult (now : Int) (data : Option (List RawTask)) : List Task :=
  let normalized := normalizeTasks now data
  if normalized.length > 0 then normalized else generateSalesTasks 50

/-- Fresh deletion token: the model of `crypto.randomUUID()` (or its
timestamp fallback) for the `n`-th draw from the fresh-value supply.
Injective and never the empty string, which is all the source relies on. -/
def freshTok (n : Nat) : String :=
  String.mk (List.replicate (n + 1) 't')

/-- Fresh task id for the `n`-th draw from the fresh-value supply. -/
def freshId (n : Nat) : String :=
  String.mk (List.replicate (n + 1) 'u')

/-- The mutable state of one `useTasks` hook instance: the task list, the
deletion buffer (`lastDeleted`, `lastDeletedToken`) and the fresh-value
counter modelling `crypto.randomUUID()` draws. -/
structure HookState where
  tasks : List Task
  lastDeleted : Option Task
  lastDeletedToken : Option String
  fresh : Nat
deriving Repr, DecidableEq

/-- The initial hook state: `useState<Task[]>([])`, `useState(null)` twice. -/
def HookState.init : HookState :=
  { tasks := [], lastDeleted := none, lastDeletedToken := none, fresh := 0 }

/-- `{ ...t, ...patch }`: shallow merge, keys present in the patch win. -/
def mergePatch (t : Task) (p : TaskPatch) : Task :=
  { id := p.id.getD t.id,
    title := p.title.getD t.title,
    revenue := p.revenue.getD t.revenue,
    timeTaken := p.timeTaken.getD t.timeTaken,
    priority := p.priority.getD t.priority,
    status := p.status.getD t.status,
    notes := p.notes.getD t.notes,
    createdAt := p.createdAt.getD t.createdAt,
    completedAt := match p.completedAt with
      | some c => some c
      | none => t.completedAt }

/-- The conditional `completedAt` stamp of `updateTask`:
`if (t.status !== 'Done' && merged.status === 'Done' && !merged.completedAt)
merged.completedAt = new Date().toISOString()`. -/
def stampDone (now : Int) (told merged : Task) : Task :=
  if told.status ≠ "Done" ∧ merged.status = "Done" ∧ merged.completedAt = none
  then { merged with completedAt := some now }
  else merged

/-- The `timeTaken` repair of `updateTask`:
`if (merged.timeTaken <= 0) merged.timeTaken = 1`. -/
def repairTime (t : Task) : Task :=
  if t.timeTaken ≤ 0 then { t with timeTaken := 1 } else t

/-- The body of the `prev.map(t => ...)` callback of `updateTask`: skip
other ids, shallow-merge the patch, stamp `completedAt` on a transition
into "Done" when the merge left it falsy, then repair `timeTaken`. -/
def updateOne (now : Int) (id : String) (p : TaskPatch) (t : Task) : Task :=
  if t.id ≠ id then t
  else repairTime (stampDone now t (mergePatch t p))

/-- `updateTask(id, patch)`. -/
def updateTask (now : Int) (id : String) (p : TaskPatch) (s : HookState) : HookState :=
  { s with tasks := s.tasks.map (updateOne now id p) }

/-- `addTask(task)`: assign an id when absent, repair `timeTaken ≤ 0` to 1,
stamp `createdAt` with the clock, set `completedAt` to `createdAt` exactly
when the initial status is "Done" (a supplied `completedAt` is overridden),
and append to the end of the list. -/
def addTask (now : Int) (nt : NewTask) (s : HookState) : HookState :=
  let id := nt.id.getD (freshId s.fresh)
  let timeTaken := if nt.timeTaken ≤ 0 then 1 else nt.timeTaken
  let createdAt := now
  let completedAt := if nt.status = "Done" then some createdAt else none
  { s with
    tasks := s.tasks ++
      [{ id := id, title := nt.title, revenue := nt.revenue,
         timeTaken := timeTaken, priority := nt.priority, status := nt.status,
         notes := nt.notes, createdAt := createdAt, completedAt := completedAt }],
    fresh := s.fresh + 1 }

/-- `deleteTask(id)`: buffer the first task with this id (`prev.find`),
generate a fresh token, and keep only the tasks whose id differs
(`prev.filter`).  Note `setLastDeleted(target)` and
`setLastDeletedToken(token)` run even when no task matches. -/
def deleteTask (s : HookState) (id : String) : HookState :=
  let target := s.tasks.find? (fun t => t.id = id)
  let token := freshTok s.fresh
  { tasks := s.tasks.filter (fun t => t.id ≠ id),
    lastDeleted := target,
    lastDeletedToken := some token,
    fresh := s.fresh + 1 }

/-- `undoDelete(token?)`: no-op on an empty buffer; no-op when a truthy
token is supplied that differs from the buffered token
(`if (token && token !== lastDeletedToken) return`); otherwise re-append
the buffered task at the end and clear the buffer. -/
def undoDelete (s : HookState) (token : Option String) : HookState :=
  match s.lastDeleted with
  | none => s
  | some buf =>
    match token with
    | some tk =>
      if tk ≠ "" ∧ some tk ≠ s.lastDeletedToken then s
      else { s with tasks := s.tasks ++ [buf],
                    lastDeleted := none, lastDeletedToken := none }
    | none => { s with tasks := s.tasks ++ [buf],
                       lastDeleted := none, lastDeletedToken := none }

/-- `clearLastDeleted(token?)`: no-op when a truthy token is supplied that
differs from the buffered token; otherwise clear the buffer without
restoring the task. -/
def clearLastDeleted (s : HookState) (token : Option String) : HookState :=
  match token with
  | some tk =>
    if tk ≠ "" ∧ some tk ≠ s.lastDeletedToken then s
    else { s with lastDeleted := none, lastDeletedToken := none }
  | none => { s with lastDeleted := none, lastDeletedToken := none }

/-- The consumer-facing operations of the state manager.  `load` is the
resolution of the cached fetch writing `setTasks(finalData)`; the clock
reading of each operation is its `now` argument. -/
inductive Op where
  | load (now : Int) (data : Option (List RawTask))
  | add (now : Int) (nt : NewTask)
  | update (now : Int) (id : String) (p : TaskPatch)
  | delete (id : String)
  | undo (token : Option String)
  | clear (token : Option String)
deriving Repr, DecidableEq

/-- One atomic state transition of the manager. -/
def stepOp (s : HookState) : Op → HookState
  | .load now data => { s with tasks := loadResult now data }
  | .add now nt => addTask now nt s
  | .update now id p => updateTask now id p s
  | .delete id => deleteTask s id
  | .undo token => undoDelete s token
  | .clear token => clearLastDeleted s token

/-- Run a sequence of operations from a state. -/
def runOps (s : HookState) : List Op → HookState
  | [] => s
  | op :: rest => runOps (stepOp s op) rest

/-- The states reachable from the initial hook state. -/
inductive Reachable : HookState → Prop where
  | init : Reachable HookState.init
  | step {s : HookState} (op : Op) : Reachable s → Reachable (stepOp s op)

/-! ## The load coordinator (`tasksFetchPromise` cache)

The module-scoped `tasksFetchPromise` makes the fetch idempotent across
effect runs.  Its lifecycle is a small state machine driven by three
events on the single JS thread: an effect run (`trigger`, the synchronous
`if (!tasksFetchPromise) { tasksFetchPromise = ... }` block, which issues
a network request exactly when the handle was empty), the failure path
(`fail`, the `catch` block that resets `tasksFetchPromise = null`), and a
successful resolution (`succeed`, after which the promise stays cached).
`started` counts issued network requests. -/

/-- An event hitting the load coordinator. -/
inductive LoadEvent where
  | trigger
  | fail
  | succeed
deriving Repr, DecidableEq

/-- State of the promise cache: `inflight` is `tasksFetchPromise !== null`,
`started` counts network requests issued so far. -/
structure LoaderState where
  inflight : Bool
  started : Nat
deriving Repr, DecidableEq

/-- One event of the load coordinator. -/
def loaderStep (s : LoaderState) : LoadEvent → LoaderState
  | .trigger => if s.inflight then s else { inflight := true, started := s.started + 1 }
  | .fail => { s with inflight := false }
  | .succeed => s

/-- Run the load coordinator from the fresh-module state. -/
def runLoader (es : List LoadEvent) : LoaderState :=
  es.foldl loaderStep { inflight := false, started := 0 }

/-! ## Concrete sample data used by witnesses and counterexamples -/

/-- Sample task with id `"a"`. -/
def taskA : Task :=
  { id := "a", title := "Task A", revenue := 10, timeTaken := 2,
    priority := "High", status := "Todo", notes := "", createdAt := 0,
    completedAt := none }

/-- Sample task with id `"b"`. -/
def taskB : Task :=
  { id := "b", title := "Task B", revenue := 20, timeTaken := 3,
    priority := "Low", status := "Todo", notes := "", createdAt := 0,
    completedAt := none }

/-- A second sample task sharing id `"a"` with `taskA`. -/
def taskA2 : Task :=
  { id := "a", title := "Task A duplicate", revenue := 5, timeTaken := 1,
    priority := "Low", status := "Todo", notes := "", createdAt := 1,
    completedAt := none }

/-- Sample task already in status "Done" with a stamped `completedAt`. -/
def taskDone : Task :=
  { id := "d", title := "Task D", revenue := 1, timeTaken := 1,
    priority := "Low", status := "Done", notes := "", createdAt := 0,
    completedAt := some 5 }

/-- Sample malformed raw record: empty title, non-positive `timeTaken`,
status "Done", no timestamps. -/
def rawSample : RawTask :=
  { title := some "", timeTaken := some (-3), status := some "Done" }

/-- The patch `{ status: v }`. -/
def statusPatch (v : String) : TaskPatch :=
  { status := some v }

/-- Sample state holding just `taskA`. -/
def stateA : HookState := ⟨[taskA], none, none, 0⟩

/-- Sample state holding `taskA` then `taskB`. -/
def stateAB : HookState := ⟨[taskA, taskB], none, none, 0⟩

/-- Sample state with a duplicated id: `taskA` and `taskA2` share id `"a"`. -/
def stateDup : HookState := ⟨[taskA, taskA2, taskB], none, none, 0⟩

/-- Sample state with `taskA` buffered under token `"k"`. -/
def stateBuffered : HookState := ⟨[taskB], some taskA, some "k", 3⟩

/-! ## The failure path of the normalizer

`normalizeTasks` is not actually total: `const created = t.createdAt ?
new Date(t.createdAt) : new Date(now - (idx + 1) * 24 * 3600 * 1000)`
accepts any truthy `createdAt`, and when that value is unparseable
`created` is an Invalid Date, so `created.toISOString()` — and, for a
"Done" record with falsy `completedAt`, the earlier
`new Date(created.getTime() + 24 * 3600 * 1000).toISOString()` — throws
`RangeError: Invalid time value`, and the whole `.map` (hence
`normalizeTasks`) throws.  The raw timestamp is therefore three-valued
and the faithful embedding of the callback is `Except`-valued. -/

/-- A raw `createdAt` as seen by `new Date(...)`: falsy (absent), truthy
and parseable to a valid instant, or truthy but unparseable (an Invalid
Date, the throwing case). -/
inductive RawTime where
  | missing
  | valid (ms : Int)
  | invalid
deriving Repr, DecidableEq

/-- A raw record with the fallible `createdAt` made explicit; all other
fields are as in `RawTask` (a truthy `completedAt` is copied verbatim and
never parsed, so it cannot throw and only its presence is observable). -/
structure RawRecord where
  id : Option String := none
  title : Option String := none
  revenue : Option Int := none
  timeTaken : Option Int := none
  priority : Option String := none
  status : Option String := none
  notes : Option String := none
  createdAt : RawTime := RawTime.missing
  completedAt : Option Int := none
deriving Repr, DecidableEq

/-- View a raw record in the non-throwing model: `valid ms ↦ some ms`,
`missing ↦ none`; `invalid` also collapses to `none`, and that collapse
is exactly where the two models part ways (see `normalizeOneE_agrees`). -/
def RawRecord.toRawTask (t : RawRecord) : RawTask :=
  { id := t.id, title := t.title, revenue := t.revenue,
    timeTaken := t.timeTaken, priority := t.priority, status := t.status,
    notes := t.notes,
    createdAt := match t.createdAt with
      | RawTime.valid ms => some ms
      | _ => none,
    completedAt := t.completedAt }

/-- The map callback of `normalizeTasks` with its failure path: the inner
match is `t.createdAt ? new Date(t.createdAt) : new Date(now - ...)`
(a synthesized instant is always valid), and an Invalid-Date `created`
makes `toISOString()` throw instead of producing a task. -/
def normalizeOneE (now : Int) (idx : Nat) (t : RawRecord) : Except String Task :=
  match (match t.createdAt with
         | RawTime.missing => RawTime.valid (now - ((idx : Int) + 1) * dayMs)
         | v => v) with
  | RawTime.valid created =>
    Except.ok
      { id := t.id.getD ("norm-" ++ toString idx),
        title := jsOrStr t.title "Untitled",
        revenue := t.revenue.getD 0,
        timeTaken := match t.timeTaken with
          | some v => if v > 0 then v else 1
          | none => 1,
        priority := jsOrStr t.priority "Low",
        status := jsOrStr t.status "Todo",
        notes := jsOrStr t.notes "",
        createdAt := created,
        completedAt := match t.completedAt with
          | some c => some c
          | none => if t.status = some "Done" then some (created + dayMs) else none }
  | _ => Except.error "RangeError: Invalid time value"

/-- `.map((t, idx) => ...)` with the failure path: the first record that
throws aborts the whole map. -/
def normalizeFromE (now : Int) (idx : Nat) : List RawRecord → Except String (List Task)
  | [] => Except.ok []
  | t :: rest =>
    match normalizeOneE now idx t with
    | Except.error e => Except.error e
    | Except.ok task =>
      match normalizeFromE now (idx + 1) rest with
      | Except.error e => Except.error e
      | Except.ok tasks => Except.ok (task :: tasks)

/-- `normalizeTasks(input)` with its failure path made explicit. -/
def normalizeTasksE (now : Int) (input : Option (List RawRecord)) :
    Except String (List Task) :=
  normalizeFromE now 0 (input.getD [])

/-- Raw record with a truthy but unparseable `createdAt`: the input on
which the real normalizer throws. -/
def rawBadCreated : RawRecord :=
  { title := some "T", createdAt := RawTime.invalid }

/-- The same record with `createdAt` absent: normalizes fine. -/
def rawMissingCreated : RawRecord :=
  { title := some "T" }

/-! ## Helper lemmas -/

theorem freshTok_injective : Function.Injective freshTok := by
  intro a b h
  have hdata : List.replicate (a + 1) 't' = List.replicate (b + 1) 't' :=
    congrArg String.data h
  have hlen := congrArg List.length hdata
  simp only [List.length_replicate] at hlen
  omega

theorem freshTok_ne_empty (n : Nat) : freshTok n ≠ "" := by
  intro h
  have hdata : List.replicate (n + 1) 't' = [] := congrArg String.data h
  simp at hdata

theorem find?_first {α : Type} (p : α → Bool) (pre : List α) (b : α) (post : List α)
    (hpre : ∀ t ∈ pre, p t = false) (hb : p b = true) :
    (pre ++ b :: post).find? p = some b := by
  induction pre with
  | nil => simp [List.find?_cons, hb]
  | cons x xs ih =>
    have hx := hpre x (List.mem_cons_self x xs)
    simp only [List.cons_append, List.find?_cons, hx]
    exact ih (fun t ht => hpre t (List.mem_cons_of_mem x ht))

/-- Closed form of `updateOne` applied to a task's own id with a pure
status patch: the status is replaced, `completedAt` is stamped exactly on
a fresh transition into "Done", and `timeTaken` is repaired. -/
theorem updateOne_self_statusPatch (now : Int) (v : String) (t : Task) :
    updateOne now t.id (statusPatch v) t =
      { t with
        status := v,
        completedAt :=
          if t.status ≠ "Done" ∧ v = "Done" ∧ t.completedAt = none
          then some now else t.completedAt,
        timeTaken := if t.timeTaken ≤ 0 then 1 else t.timeTaken } := by
  by_cases c1 : t.status ≠ "Done" ∧ v = "Done" ∧ t.completedAt = none <;>
    by_cases c2 : t.timeTaken ≤ 0 <;>
      simp [updateOne, stampDone, repairTime, mergePatch, statusPatch, c1, c2]

/-! ## Claim C1 -/

/-- Claim C1 counterexample: deleting a non-existent id does NOT leave the
deletion buffer unchanged.  Starting from a single task `taskA`, delete it
(the buffer now holds `taskA` with token `freshTok 0`), then call
`deleteTask "zzz"` where `"zzz"` occurs nowhere in the task list: the task
list is unchanged, but `lastDeleted` drops from `some taskA` to `none` and
`lastDeletedToken` moves to a fresh token, contradicting the claim. -/
theorem C1_counterexample :
    (∀ t ∈ (deleteTask stateA "a").tasks, t.id ≠ "zzz") ∧
    (deleteTask stateA "a").lastDeleted = some taskA ∧
    (deleteTask (deleteTask stateA "a") "zzz").lastDeleted = none ∧
    (deleteTask (deleteTask stateA "a") "zzz").lastDeletedToken ≠
      (deleteTask stateA "a").lastDeletedToken := by
  decide

/-- Claim C1 (amended): for every task list and every id that does not
occur in it, `deleteTask id` leaves the task list unchanged, but it does
overwrite the deletion buffer: `lastDeleted` is reset to `none` and
`lastDeletedToken` is set to the freshly generated token, so a previously
buffered deletion is lost. -/
theorem C1_deleteTask_missing_id (s : HookState) (id : String)
    (h : ∀ t ∈ s.tasks, t.id ≠ id) :
    (deleteTask s id).tasks = s.tasks ∧
    (deleteTask s id).lastDeleted = none ∧
    (deleteTask s id).lastDeletedToken = some (freshTok s.fresh) := by
  refine ⟨?_, ?_, rfl⟩
  · show s.tasks.filter (fun t => t.id ≠ id) = s.tasks
    exact List.filter_eq_self.mpr (fun t ht => by simpa using h t ht)
  · show s.tasks.find? (fun t => t.id = id) = none
    exact List.find?_eq_none.mpr (fun t ht => by simpa using h t ht)

/-- Witness for `C1_deleteTask_missing_id` at a concrete state. -/
theorem C1_deleteTask_missing_id_witness :
    (deleteTask stateA "zzz").tasks = stateA.tasks ∧
    (deleteTask stateA "zzz").lastDeleted = none ∧
    (deleteTask stateA "zzz").lastDeletedToken = some (freshTok 0) :=
  C1_deleteTask_missing_id stateA "zzz" (by decide)

/-! ## Claim C5 -/

/-- Claim C5: when the deletion buffer holds a task, `undoDelete` called
with no token, or with a token equal to the buffered token, appends the
buffered task at the end of the task list and resets both `lastDeleted`
and `lastDeletedToken` to empty; `undoDelete` on an empty buffer is a
no-op. -/
theorem C5_undoDelete_restores (s : HookState) (tok : Option String) :
    (s.lastDeleted = none → undoDelete s tok = s) ∧
    (∀ buf, s.lastDeleted = some buf →
      (tok = none ∨ tok = s.lastDeletedToken) →
      undoDelete s tok =
        { s with tasks := s.tasks ++ [buf],
                 lastDeleted := none, lastDeletedToken := none }) := by
  constructor
  · intro h
    simp [undoDelete, h]
  · intro buf hbuf htok
    rcases htok with h | h
    · subst h
      simp [undoDelete, hbuf]
    · cases tok with
      | none => simp [undoDelete, hbuf]
      | some tk =>
        simp [undoDelete, hbuf, ← h]

/-- Witness for `C5_undoDelete_restores`: a matching token restores the
buffered task at the end of the list and clears the buffer. -/
theorem C5_undoDelete_restores_witness :
    undoDelete stateBuffered (some "k") = ⟨[taskB, taskA], none, none, 3⟩ :=
  (C5_undoDelete_restores stateBuffered (some "k")).2 taskA rfl (Or.inr rfl)

/-! ## Claim C10 -/

/-- Claim C10: `deleteTask id` removes every task whose id equals `id`
(keeping the others, in order), while only the first matching task is
placed in the deletion buffer. -/
theorem C10_deleteTask_removes_all (s : HookState) (id : String) :
    (∀ t ∈ (deleteTask s id).tasks, t.id ≠ id) ∧
    (deleteTask s id).tasks.Sublist s.tasks ∧
    (∀ t ∈ s.tasks, t.id ≠ id → t ∈ (deleteTask s id).tasks) ∧
    (∀ pre buf post, s.tasks = pre ++ buf :: post →
      (∀ t ∈ pre, t.id ≠ id) → buf.id = id →
      (deleteTask s id).lastDeleted = some buf) := by
  refine ⟨?_, ?_, ?_, ?_⟩
  · intro t ht
    have := List.of_mem_filter ht
    simpa using this
  · exact List.filter_sublist s.tasks
  · intro t ht hne
    exact List.mem_filter.mpr ⟨ht, by simpa using hne⟩
  · intro pre buf post hdec hpre hbuf
    show s.tasks.find? (fun t => t.id = id) = some buf
    rw [hdec]
    exact find?_first _ pre buf post
      (fun t ht => by simpa using hpre t ht) (by simpa using hbuf)

/-- Witness for `C10_deleteTask_removes_all` on a list with a duplicated
id: both copies of id `"a"` are removed, `taskB` survives, and the first
copy (`taskA`) is the one buffered. -/
theorem C10_deleteTask_removes_all_witness :
    (∀ t ∈ (deleteTask stateDup "a").tasks, t.id ≠ "a") ∧
    taskB ∈ (deleteTask stateDup "a").tasks ∧
    (deleteTask stateDup "a").lastDeleted = some taskA := by
  have h := C10_deleteTask_removes_all stateDup "a"
  exact ⟨h.1, h.2.2.1 taskB (by decide) (by decide),
    h.2.2.2 [] taskA [taskA2, taskB] rfl (by decide) rfl⟩

/-! ## Claim C3 -/

/-- Claim C3: updating a non-"Done" task with no `completedAt` to status
"Done" stamps `completedAt` with the clock; re-applying the same update to
the now-"Done" task keeps the stamp; and moving a "Done" task to any
non-"Done" status never clears `completedAt`.  The updated task is the
image of the original in the list produced by `updateTask`. -/
theorem C3_completedAt_stamping (now now2 : Int) (s : HookState) (t : Task)
    (hmem : t ∈ s.tasks) :
    (t.status ≠ "Done" → t.completedAt = none →
      (updateOne now t.id (statusPatch "Done") t).completedAt = some now) ∧
    (updateOne now t.id (statusPatch "Done") t ∈
      (updateTask now t.id (statusPatch "Done") s).tasks) ∧
    (t.status ≠ "Done" → t.completedAt = none →
      (updateOne now2 t.id (statusPatch "Done")
        (updateOne now t.id (statusPatch "Done") t)).completedAt = some now) ∧
    (t.status = "Done" →
      (updateOne now2 t.id (statusPatch "Done") t).completedAt = t.completedAt) ∧
    (∀ v, v ≠ "Done" → t.status = "Done" →
      (updateOne now2 t.id (statusPatch v) t).completedAt = t.completedAt) := by
  refine ⟨?_, ?_, ?_, ?_, ?_⟩
  · intro hst hc
    rw [updateOne_self_statusPatch]
    simp [hst, hc]
  · exact List.mem_map_of_mem _ hmem
  · intro hst hc
    have hu := updateOne_self_statusPatch now "Done" t
    set u := updateOne now t.id (statusPatch "Done") t with hudef
    have hid : u.id = t.id := by rw [hu]
    have hcu : u.completedAt = some now := by rw [hu]; simp [hst, hc]
    have hsu : u.status = "Done" := by rw [hu]
    have hsw : updateOne now2 t.id (statusPatch "Done") u =
        updateOne now2 u.id (statusPatch "Done") u := by rw [hid]
    rw [hsw, updateOne_self_statusPatch now2 "Done" u]
    simp [hsu, hcu]
  · intro hst
    rw [updateOne_self_statusPatch]
    simp [hst]
  · intro v hv hst
    rw [updateOne_self_statusPatch]
    simp [hst, hv]

/-- Witness for `C3_completedAt_stamping` at concrete tasks: `taskA`
(status "Todo", no `completedAt`) and `taskDone` (status "Done",
`completedAt = some 5`). -/
theorem C3_completedAt_stamping_witness :
    (updateOne 42 "a" (statusPatch "Done") taskA).completedAt = some 42 ∧
    (updateOne 43 "a" (statusPatch "Done")
      (updateOne 42 "a" (statusPatch "Done") taskA)).completedAt = some 42 ∧
    (updateOne 44 "d" (statusPatch "Todo") taskDone).completedAt =
      taskDone.completedAt := by
  have h := C3_completedAt_stamping 42 43 stateA taskA (by decide)
  have hd := C3_completedAt_stamping 42 44 ⟨[taskDone], none, none, 0⟩ taskDone
    (by decide)
  exact ⟨h.1 (by decide) rfl, h.2.2.1 (by decide) rfl,
    hd.2.2.2.2 "Todo" (by decide) rfl⟩

/-! ## Claim C4 -/

/-- Claim C4: after `deleteTask A.id` then `deleteTask B.id` (for distinct
tasks `A`, `B` of the list, with distinct ids), `undoDelete` with the token
of the FIRST deletion is a no-op — the token no longer matches the buffered
token of the second deletion — and the list contains no task with either
id. -/
theorem C4_stale_undo_noop (s : HookState) (A B : Task)
    (hA : A ∈ s.tasks) (hB : B ∈ s.tasks) (hid : A.id ≠ B.id) :
    (deleteTask s A.id).lastDeletedToken = some (freshTok s.fresh) ∧
    undoDelete (deleteTask (deleteTask s A.id) B.id) (some (freshTok s.fresh)) =
      deleteTask (deleteTask s A.id) B.id ∧
    (∀ t ∈ (deleteTask (deleteTask s A.id) B.id).tasks,
      t.id ≠ A.id ∧ t.id ≠ B.id) := by
  have hBmem : B ∈ (deleteTask s A.id).tasks := by
    refine List.mem_filter.mpr ⟨hB, ?_⟩
    simpa using fun h => hid h.symm
  have hfound : ((deleteTask s A.id).tasks.find? (fun t => t.id = B.id)).isSome := by
    rw [List.find?_isSome]
    exact ⟨B, hBmem, by simp⟩
  obtain ⟨buf, hbuf⟩ := Option.isSome_iff_exists.mp hfound
  have htok1 : freshTok s.fresh ≠ "" := freshTok_ne_empty s.fresh
  have htok2 : freshTok s.fresh ≠ freshTok (s.fresh + 1) := by
    intro h
    have := freshTok_injective h
    omega
  refine ⟨rfl, ?_, ?_⟩
  · have hbuf2 : (deleteTask (deleteTask s A.id) B.id).lastDeleted = some buf := hbuf
    have htokstate :
        (deleteTask (deleteTask s A.id) B.id).lastDeletedToken =
          some (freshTok (s.fresh + 1)) := rfl
    simp [undoDelete, hbuf2, htokstate, htok1, htok2]
  · intro t ht
    have h2 := List.of_mem_filter ht
    have h1 := List.of_mem_filter (List.mem_of_mem_filter ht)
    exact ⟨by simpa using h1, by simpa using h2⟩

/-- Witness for `C4_stale_undo_noop`: delete `taskA` then `taskB` from the
two-task state, then try to undo with the first token. -/
theorem C4_stale_undo_noop_witness :
    (deleteTask stateAB "a").lastDeletedToken = some (freshTok 0) ∧
    undoDelete (deleteTask (deleteTask stateAB "a") "b") (some (freshTok 0)) =
      deleteTask (deleteTask stateAB "a") "b" ∧
    (∀ t ∈ (deleteTask (deleteTask stateAB "a") "b").tasks,
      t.id ≠ "a" ∧ t.id ≠ "b") :=
  C4_stale_undo_noop stateAB taskA taskB (by decide) (by decide) (by decide)

/-! ## The task invariant preserved by every operation -/

/-- The per-task invariant maintained by the state manager: `timeTaken`
is positive, and a task in status "Done" carries a `completedAt`. -/
def TaskInv (t : Task) : Prop :=
  0 < t.timeTaken ∧ (t.status = "Done" → t.completedAt.isSome = true)

/-- The state invariant: every task in the list and any buffered task
satisfy `TaskInv`. -/
def StateInv (s : HookState) : Prop :=
  (∀ t ∈ s.tasks, TaskInv t) ∧ (∀ t, s.lastDeleted = some t → TaskInv t)

theorem jsOrStr_eq_of_ne_default {o : Option String} {d x : String}
    (h : jsOrStr o d = x) (hx : x ≠ d) : o = some x := by
  cases o with
  | none =>
    simp only [jsOrStr] at h
    exact absurd h.symm hx
  | some s =>
    simp only [jsOrStr] at h
    by_cases hs : s = ""
    · rw [if_pos hs] at h
      exact absurd h.symm hx
    · rw [if_neg hs] at h
      exact congrArg some h

theorem normalizeOne_inv (now : Int) (idx : Nat) (r : RawTask) :
    TaskInv (normalizeOne now idx r) := by
  constructor
  · show 0 < (normalizeOne now idx r).timeTaken
    simp only [normalizeOne]
    cases r.timeTaken with
    | none => decide
    | some v =>
      by_cases hv : v > 0
      · simpa [hv] using hv
      · simp [hv]
  · intro hdone
    have hst : jsOrStr r.status "Todo" = "Done" := hdone
    have hraw : r.status = some "Done" :=
      jsOrStr_eq_of_ne_default hst (by decide)
    show (normalizeOne now idx r).completedAt.isSome = true
    simp only [normalizeOne]
    cases r.completedAt with
    | none => simp [hraw]
    | some c => simp

theorem normalizeFrom_inv (now : Int) (k : Nat) (xs : List RawTask) :
    ∀ t ∈ normalizeFrom now k xs, TaskInv t := by
  induction xs generalizing k with
  | nil => intro t ht; simp [normalizeFrom] at ht
  | cons x rest ih =>
    intro t ht
    simp only [normalizeFrom, List.mem_cons] at ht
    rcases ht with h | h
    · rw [h]; exact normalizeOne_inv now k x
    · exact ih (k + 1) t h

theorem generateSalesTasks_inv (n : Nat) :
    ∀ t ∈ generateSalesTasks n, TaskInv t := by
  intro t ht
  simp only [generateSalesTasks, List.mem_map] at ht
  obtain ⟨i, _, rfl⟩ := ht
  refine ⟨?_, ?_⟩
  · show (0 : Int) < 1
    decide
  · intro h
    exact absurd h (by decide : ("Todo" : String) ≠ "Done")

theorem loadResult_inv (now : Int) (data : Option (List RawTask)) :
    ∀ t ∈ loadResult now data, TaskInv t := by
  intro t ht
  simp only [loadResult] at ht
  split at ht
  · exact normalizeFrom_inv now 0 (data.getD []) t ht
  · exact generateSalesTasks_inv 50 t ht

theorem mergePatch_completedAt_isSome (t : Task) (p : TaskPatch)
    (h : t.completedAt.isSome = true) :
    (mergePatch t p).completedAt.isSome = true := by
  show (match p.completedAt with
        | some c => some c
        | none => t.completedAt).isSome = true
  cases p.completedAt with
  | none => exact h
  | some c => simp

theorem repairTime_timeTaken_pos (t : Task) : 0 < (repairTime t).timeTaken := by
  unfold repairTime
  split
  · show (0 : Int) < 1
    decide
  · next hle =>
    show 0 < t.timeTaken
    omega

theorem repairTime_completedAt (t : Task) :
    (repairTime t).completedAt = t.completedAt := by
  unfold repairTime
  split <;> rfl

theorem repairTime_status (t : Task) : (repairTime t).status = t.status := by
  unfold repairTime
  split <;> rfl

theorem updateOne_inv (now : Int) (id : String) (p : TaskPatch) (t : Task)
    (h : TaskInv t) : TaskInv (updateOne now id p t) := by
  by_cases hid : t.id ≠ id
  · simpa [updateOne, hid] using h
  · unfold updateOne
    rw [if_neg hid]
    refine ⟨repairTime_timeTaken_pos _, ?_⟩
    intro hdone
    rw [repairTime_completedAt]
    rw [repairTime_status] at hdone
    unfold stampDone at hdone ⊢
    by_cases c1 : t.status ≠ "Done" ∧ (mergePatch t p).status = "Done" ∧
      (mergePatch t p).completedAt = none
    · rw [if_pos c1]
      simp
    · rw [if_neg c1] at hdone ⊢
      push_neg at c1
      by_cases ct : t.status = "Done"
      · exact mergePatch_completedAt_isSome t p (h.2 ct)
      · exact Option.ne_none_iff_isSome.mp (c1 ct hdone)

theorem updateOne_completedAt_mono (now : Int) (id : String) (p : TaskPatch)
    (t : Task) (h : t.completedAt.isSome = true) :
    (updateOne now id p t).completedAt.isSome = true := by
  by_cases hid : t.id ≠ id
  · simpa [updateOne, hid] using h
  · unfold updateOne
    rw [if_neg hid, repairTime_completedAt]
    unfold stampDone
    split
    · simp
    · exact mergePatch_completedAt_isSome t p h

theorem stepOp_inv (s : HookState) (op : Op) (h : StateInv s) :
    StateInv (stepOp s op) := by
  obtain ⟨hlist, hbuf⟩ := h
  cases op with
  | load now data =>
    exact ⟨fun t ht => loadResult_inv now data t ht, hbuf⟩
  | add now nt =>
    constructor
    · intro t ht
      simp only [stepOp, addTask, List.mem_append, List.mem_singleton] at ht
      rcases ht with h | h
      · exact hlist t h
      · subst h
        refine ⟨?_, ?_⟩
        · show 0 < (if nt.timeTaken ≤ 0 then 1 else nt.timeTaken)
          split <;> omega
        · intro hdone
          have : nt.status = "Done" := hdone
          simp [this]
    · exact hbuf
  | update now id p =>
    constructor
    · intro t ht
      simp only [stepOp, updateTask, List.mem_map] at ht
      obtain ⟨t0, ht0, rfl⟩ := ht
      exact updateOne_inv now id p t0 (hlist t0 ht0)
    · exact hbuf
  | delete id =>
    constructor
    · intro t ht
      exact hlist t (List.mem_of_mem_filter ht)
    · intro t ht
      have : t ∈ s.tasks := List.mem_of_find?_eq_some ht
      exact hlist t this
  | undo token =>
    show StateInv (undoDelete s token)
    cases hl : s.lastDeleted with
    | none =>
      have hu : undoDelete s token = s := by
        unfold undoDelete
        rw [hl]
      rw [hu]
      exact ⟨hlist, hbuf⟩
    | some buf =>
      have hbufInv : TaskInv buf := hbuf buf hl
      have happend : ∀ t ∈ s.tasks ++ [buf], TaskInv t := by
        intro t ht
        rcases List.mem_append.mp ht with h | h
        · exact hlist t h
        · rw [List.mem_singleton.mp h]; exact hbufInv
      cases token with
      | none =>
        have hu : undoDelete s none =
            { s with tasks := s.tasks ++ [buf],
                     lastDeleted := none, lastDeletedToken := none } := by
          unfold undoDelete
          rw [hl]
        rw [hu]
        exact ⟨happend, by intro t ht; simp at ht⟩
      | some tk =>
        have hu : undoDelete s (some tk) =
            if tk ≠ "" ∧ some tk ≠ s.lastDeletedToken then s
            else { s with tasks := s.tasks ++ [buf],
                          lastDeleted := none, lastDeletedToken := none } := by
          unfold undoDelete
          rw [hl]
        rw [hu]
        split
        · exact ⟨hlist, hbuf⟩
        · exact ⟨happend, by intro t ht; simp at ht⟩
  | clear token =>
    show StateInv (clearLastDeleted s token)
    cases token with
    | none =>
      have hu : clearLastDeleted s none =
          { s with lastDeleted := none, lastDeletedToken := none } := rfl
      rw [hu]
      exact ⟨hlist, by intro t ht; simp at ht⟩
    | some tk =>
      have hu : clearLastDeleted s (some tk) =
          if tk ≠ "" ∧ some tk ≠ s.lastDeletedToken then s
          else { s with lastDeleted := none, lastDeletedToken := none } := rfl
      rw [hu]
      split
      · exact ⟨hlist, hbuf⟩
      · exact ⟨hlist, by intro t ht; simp at ht⟩

theorem reachable_StateInv {s : HookState} (h : Reachable s) : StateInv s := by
  induction h with
  | init =>
    exact ⟨by intro t ht; simp [HookState.init] at ht,
      by intro t ht; simp [HookState.init] at ht⟩
  | step op _ ih => exact stepOp_inv _ op ih

/-! ## Claim C2 -/

/-- Raw record with status "Todo" (defaulted) but a `completedAt` value:
the normalizer keeps the supplied `completedAt` unconditionally. -/
def rawTodoCompleted : RawTask :=
  ⟨none, some "T", none, none, none, none, none, none, some 99⟩

/-- New-task argument with status "Done". -/
def ntDone : NewTask :=
  { title := "W", revenue := 0, timeTaken := 2, status := "Done" }

/-- New-task argument with a non-positive `timeTaken`. -/
def ntNeg : NewTask :=
  { title := "X", timeTaken := -5 }

/-- Claim C2 counterexample: after loading a single raw record whose
status defaults to "Todo" but which carries `completedAt: 99`, the
resulting (reachable) state contains a task with `completedAt` present
although no task ever had status "Done" in any state of the execution —
so `completedAt` present does NOT imply the status has reached "Done". -/
theorem C2_counterexample :
    (∀ t ∈ HookState.init.tasks, t.status ≠ "Done") ∧
    (∀ t ∈ (stepOp HookState.init (Op.load 0 (some [rawTodoCompleted]))).tasks,
      t.status ≠ "Done") ∧
    (∃ t ∈ (stepOp HookState.init (Op.load 0 (some [rawTodoCompleted]))).tasks,
      t.completedAt.isSome = true) := by
  decide

/-- Claim C2 (amended): in every reachable state, every task in the task
list (and any buffered task) whose status is "Done" has `completedAt`
present, and `updateTask` never removes a present `completedAt`; the
converse fails (see the counterexample): `completedAt` can be present on a
task that has never been "Done", because raw load records and update
patches may supply a `completedAt` value directly. -/
theorem C2_completedAt_invariant (s : HookState) (h : Reachable s) :
    (∀ t ∈ s.tasks, t.status = "Done" → t.completedAt.isSome = true) ∧
    (∀ t, s.lastDeleted = some t → t.status = "Done" → t.completedAt.isSome = true) ∧
    (∀ (now : Int) (id : String) (p : TaskPatch) (t : Task),
      t.completedAt.isSome = true →
      (updateOne now id p t).completedAt.isSome = true) := by
  have hs := reachable_StateInv h
  exact ⟨fun t ht hd => (hs.1 t ht).2 hd,
    fun t ht hd => (hs.2 t ht).2 hd,
    fun now id p t => updateOne_completedAt_mono now id p t⟩

/-- Witness for `C2_completedAt_invariant` at the reachable state obtained
by adding a "Done" task to the initial state: the stored task carries a
`completedAt`. -/
theorem C2_completedAt_invariant_witness :
    (⟨freshId 0, "W", 0, 2, "Low", "Done", "", 7, some 7⟩ : Task).completedAt.isSome = true :=
  (C2_completedAt_invariant (stepOp HookState.init (Op.add 7 ntDone))
    (Reachable.step _ Reachable.init)).1
    ⟨freshId 0, "W", 0, 2, "Low", "Done", "", 7, some 7⟩ (by decide) rfl

/-! ## Claim C7 -/

/-- Claim C7: every task in the task list of any reachable state has
positive `timeTaken`, and each repair site behaves as claimed: the
normalizer coerces a non-positive raw value to 1, `addTask` coerces a
non-positive supplied value to 1 on the appended task, and `updateTask`
coerces the merged value to 1 when it is non-positive. -/
theorem C7_timeTaken_positive (s : HookState) (h : Reachable s) :
    (∀ t ∈ s.tasks, 0 < t.timeTaken) ∧
    (∀ (now : Int) (idx : Nat) (r : RawTask) (v : Int),
      r.timeTaken = some v → v ≤ 0 → (normalizeOne now idx r).timeTaken = 1) ∧
    (∀ (now : Int) (nt : NewTask) (s0 : HookState), nt.timeTaken ≤ 0 →
      ∃ newT, (addTask now nt s0).tasks = s0.tasks ++ [newT] ∧
        newT.timeTaken = 1) ∧
    (∀ (now : Int) (id : String) (p : TaskPatch) (t : Task), t.id = id →
      (mergePatch t p).timeTaken ≤ 0 → (updateOne now id p t).timeTaken = 1) := by
  refine ⟨fun t ht => ((reachable_StateInv h).1 t ht).1, ?_, ?_, ?_⟩
  · intro now idx r v hv hle
    show (normalizeOne now idx r).timeTaken = 1
    simp only [normalizeOne, hv]
    rw [if_neg (by omega : ¬ v > 0)]
  · intro now nt s0 hle
    refine ⟨_, rfl, ?_⟩
    exact if_pos hle
  · intro now id p t hid hle
    unfold updateOne
    rw [if_neg (by simp [hid])]
    have hst : (stampDone now t (mergePatch t p)).timeTaken =
        (mergePatch t p).timeTaken := by
      unfold stampDone
      split <;> rfl
    have hrt : repairTime (stampDone now t (mergePatch t p)) =
        { stampDone now t (mergePatch t p) with timeTaken := 1 } := by
      unfold repairTime
      rw [hst, if_pos hle]
    rw [hrt]

/-- Witness for `C7_timeTaken_positive` at the reachable state obtained by
adding a task with `timeTaken = -5` to the initial state: the stored task
has `timeTaken = 1`. -/
theorem C7_timeTaken_positive_witness :
    0 < (⟨freshId 0, "X", 0, 1, "Low", "Todo", "", 0, none⟩ : Task).timeTaken :=
  (C7_timeTaken_positive (stepOp HookState.init (Op.add 0 ntNeg))
    (Reachable.step _ Reachable.init)).1
    ⟨freshId 0, "X", 0, 1, "Low", "Todo", "", 0, none⟩ (by decide)

/-! ## Claim C6

The claim says the normalizer never fails on arbitrary malformed records.
The code does fail: a truthy unparseable `createdAt` gives an Invalid
Date and `created.toISOString()` throws `RangeError: Invalid time value`
(`useTasks.ts` line 70, or line 59 when the status is "Done"), although
the spec (4.1, 7(b), 8) asserts a no-failure path and every other field
of the callback is guarded.  This is a code bug: `normalizeOneE` embeds
the failure path, `C6_normalizeTasks_range_error` evaluates it at the
failing input, and the agreement lemmas show the total model used by the
other claims coincides with the fallible one on every non-throwing
record. -/

theorem normalizeFrom_length (now : Int) (k : Nat) (xs : List RawTask) :
    (normalizeFrom now k xs).length = xs.length := by
  induction xs generalizing k with
  | nil => rfl
  | cons x rest ih => simp [normalizeFrom, ih]

theorem normalizeFrom_get (now : Int) (xs : List RawTask) :
    ∀ (k i : Nat) (h1 : i < xs.length) (h2 : i < (normalizeFrom now k xs).length),
      (normalizeFrom now k xs).get ⟨i, h2⟩ = normalizeOne now (k + i) (xs.get ⟨i, h1⟩) := by
  induction xs with
  | nil =>
    intro k i h1 h2
    simp at h1
  | cons x rest ih =>
    intro k i h1 h2
    cases i with
    | zero => rfl
    | succ j =>
      have h1r : j < rest.length := by simpa using h1
      have h2r : j < (normalizeFrom now (k + 1) rest).length := by
        rw [normalizeFrom_length]
        exact h1r
      have := ih (k + 1) j h1r h2r
      show (normalizeFrom now (k + 1) rest).get ⟨j, h2r⟩ =
        normalizeOne now (k + (j + 1)) (rest.get ⟨j, h1r⟩)
      rw [this]
      congr 1
      omega

theorem jsOrStr_ne_empty (o : Option String) (d : String) (hd : d ≠ "") :
    jsOrStr o d ≠ "" := by
  cases o with
  | none => exact hd
  | some s =>
    simp only [jsOrStr]
    split
    · exact hd
    · next hs => exact hs

/-- Default-filling behavior of the normalizer on its non-throwing
fragment: a non-array input yields `[]`; the output has the same length
as the input and its `i`-th task is determined by the `i`-th raw record
(same order); and each output task has a non-empty title ("Untitled" on
a missing or empty one), revenue 0 when the raw value is not finite,
positive `timeTaken` (1 when the raw value is absent or not positive),
`createdAt` synthesized as now minus `(idx+1)` days when absent, and
`completedAt` synthesized as `createdAt` plus one day exactly when
absent with status "Done". -/
theorem normalizeTasks_defaults (now : Int) (input : Option (List RawTask)) :
    normalizeTasks now none = [] ∧
    (normalizeTasks now input).length = (input.getD []).length ∧
    (∀ (xs : List RawTask) (i : Nat) (h1 : i < xs.length)
      (h2 : i < (normalizeTasks now (some xs)).length),
      (normalizeTasks now (some xs)).get ⟨i, h2⟩ = normalizeOne now i (xs.get ⟨i, h1⟩)) ∧
    (∀ (idx : Nat) (r : RawTask),
      (normalizeOne now idx r).title ≠ "" ∧
      ((r.title = none ∨ r.title = some "") →
        (normalizeOne now idx r).title = "Untitled") ∧
      (r.revenue = none → (normalizeOne now idx r).revenue = 0) ∧
      0 < (normalizeOne now idx r).timeTaken ∧
      ((r.timeTaken = none ∨ ∃ v, r.timeTaken = some v ∧ v ≤ 0) →
        (normalizeOne now idx r).timeTaken = 1) ∧
      (r.createdAt = none →
        (normalizeOne now idx r).createdAt = now - ((idx : Int) + 1) * dayMs) ∧
      (r.completedAt = none → r.status = some "Done" →
        (normalizeOne now idx r).completedAt =
          some ((normalizeOne now idx r).createdAt + dayMs)) ∧
      (r.completedAt = none → r.status ≠ some "Done" →
        (normalizeOne now idx r).completedAt = none)) := by
  refine ⟨rfl, ?_, ?_, ?_⟩
  · show (normalizeFrom now 0 (input.getD [])).length = (input.getD []).length
    exact normalizeFrom_length now 0 _
  · intro xs i h1 h2
    have := normalizeFrom_get now xs 0 i h1 (by simpa [normalizeTasks] using h2)
    simpa [normalizeTasks] using this
  · intro idx r
    refine ⟨?_, ?_, ?_, (normalizeOne_inv now idx r).1, ?_, ?_, ?_, ?_⟩
    · exact jsOrStr_ne_empty r.title "Untitled" (by decide)
    · intro h
      rcases h with h | h <;> simp [normalizeOne, jsOrStr, h]
    · intro h
      simp [normalizeOne, h]
    · intro h
      rcases h with h | ⟨v, hv, hle⟩
      · simp [normalizeOne, h]
      · show (normalizeOne now idx r).timeTaken = 1
        simp only [normalizeOne, hv]
        rw [if_neg (by omega : ¬ v > 0)]
    · intro h
      simp [normalizeOne, h]
    · intro hc hs
      simp [normalizeOne, hc, hs]
    · intro hc hs
      simp [normalizeOne, hc, hs]

/-- On a record whose `createdAt` does not throw, the fallible callback
agrees with the total model. -/
theorem normalizeOneE_agrees (now : Int) (idx : Nat) (t : RawRecord)
    (h : t.createdAt ≠ RawTime.invalid) :
    normalizeOneE now idx t = Except.ok (normalizeOne now idx t.toRawTask) := by
  obtain ⟨i, ti, re, tt, pr, st, no, ca, co⟩ := t
  cases ca with
  | missing => rfl
  | valid ms => rfl
  | invalid => exact absurd rfl h

/-- Lifting `normalizeOneE_agrees` over the map. -/
theorem normalizeFromE_agrees (now : Int) (xs : List RawRecord) :
    ∀ k : Nat, (∀ t ∈ xs, t.createdAt ≠ RawTime.invalid) →
      normalizeFromE now k xs =
        Except.ok (normalizeFrom now k (xs.map RawRecord.toRawTask)) := by
  induction xs with
  | nil =>
    intro k _
    rfl
  | cons x rest ih =>
    intro k h
    have hx := normalizeOneE_agrees now k x (h x (List.mem_cons_self x rest))
    have hr := ih (k + 1) (fun t ht => h t (List.mem_cons_of_mem x ht))
    simp only [normalizeFromE, hx, hr]
    rfl

/-- The total `normalizeTasks` used by the other claims is exactly the
fallible normalizer on every input none of whose records throws. -/
theorem normalizeTasksE_agrees (now : Int) (input : Option (List RawRecord))
    (h : ∀ t ∈ input.getD [], t.createdAt ≠ RawTime.invalid) :
    normalizeTasksE now input =
      Except.ok (normalizeTasks now (input.map (fun xs => xs.map RawRecord.toRawTask))) := by
  cases input with
  | none => rfl
  | some xs => exact normalizeFromE_agrees now xs 0 (by simpa using h)

/-- Claim C6 (code bug): contrary to the claim, the normalizer CAN fail.
On a record whose `createdAt` is truthy but unparseable,
`created.toISOString()` throws `RangeError: Invalid time value` and
`normalizeTasks` fails instead of degrading the field to a default; the
same record with `createdAt` absent normalizes fine, to the value the
total model gives it. -/
theorem C6_normalizeTasks_range_error :
    normalizeTasksE 0 (some [rawBadCreated]) =
      Except.error "RangeError: Invalid time value" ∧
    normalizeTasksE 0 (some [rawMissingCreated]) =
      Except.ok (normalizeTasks 0 (some [rawMissingCreated.toRawTask])) := by
  exact ⟨rfl, rfl⟩

/-! ## Claim C8 -/

/-- Claim C8: on a successful load the final list is never empty — when
normalization yields zero records the 50-record generated fallback batch
is substituted, otherwise the normalized records are used as-is. -/
theorem C8_fallback_batch (now : Int) (data : Option (List RawTask)) :
    0 < (loadResult now data).length ∧
    (normalizeTasks now data = [] →
      loadResult now data = generateSalesTasks 50 ∧
      (loadResult now data).length = 50) ∧
    (normalizeTasks now data ≠ [] →
      loadResult now data = normalizeTasks now data) := by
  have hglen : (generateSalesTasks 50).length = 50 := by
    rfl
  refine ⟨?_, ?_, ?_⟩
  · simp only [loadResult]
    split
    · next h => omega
    · omega
  · intro h
    simp only [loadResult, h]
    exact ⟨rfl, hglen⟩
  · intro h
    have hpos : 0 < (normalizeTasks now data).length := List.length_pos.mpr h
    simp only [loadResult]
    rw [if_pos hpos]

/-- Witness for `C8_fallback_batch`: loading an empty array yields the
50-task fallback. -/
theorem C8_fallback_batch_witness :
    loadResult 0 (some []) = generateSalesTasks 50 ∧
    (loadResult 0 (some [])).length = 50 :=
  (C8_fallback_batch 0 (some [])).2.1 rfl

/-! ## Claim C9 -/

theorem loader_stay (es : List LoadEvent) (s : LoaderState)
    (hfail : LoadEvent.fail ∉ es) (hin : s.inflight = true) :
    es.foldl loaderStep s = s := by
  induction es generalizing s with
  | nil => rfl
  | cons e rest ih =>
    have hrest : LoadEvent.fail ∉ rest := fun h => hfail (List.mem_cons_of_mem _ h)
    cases e with
    | trigger =>
      simp only [List.foldl_cons, loaderStep, hin, if_true]
      exact ih s hrest hin
    | fail => exact absurd (List.mem_cons_self _ _) hfail
    | succeed =>
      simp only [List.foldl_cons, loaderStep]
      exact ih s hrest hin

theorem loader_run_no_fail (es : List LoadEvent) (k : Nat)
    (hfail : LoadEvent.fail ∉ es) :
    (es.foldl loaderStep ⟨false, k⟩).started =
      if LoadEvent.trigger ∈ es then k + 1 else k := by
  induction es generalizing k with
  | nil => rfl
  | cons e rest ih =>
    have hrest : LoadEvent.fail ∉ rest := fun h => hfail (List.mem_cons_of_mem _ h)
    cases e with
    | trigger =>
      simp only [List.foldl_cons, loaderStep, Bool.false_eq_true, if_false]
      rw [loader_stay rest ⟨true, k + 1⟩ hrest rfl]
      simp
    | fail => exact absurd (List.mem_cons_self _ _) hfail
    | succeed =>
      simp only [List.foldl_cons, loaderStep]
      rw [ih k hrest]
      simp [List.mem_cons]

theorem loader_run_le (es : List LoadEvent) :
    ∀ s : LoaderState,
      (es.foldl loaderStep s).started ≤
        s.started + (if s.inflight then 0 else 1) + es.count LoadEvent.fail := by
  induction es with
  | nil =>
    intro s
    simp only [List.foldl_nil, List.count_nil]
    split <;> omega
  | cons e rest ih =>
    rintro ⟨inf, st⟩
    cases e with
    | trigger =>
      cases inf with
      | true =>
        have := ih ⟨true, st⟩
        simp only [List.foldl_cons, loaderStep, if_true] at this ⊢
        simp only [List.count_cons]
        simp at this ⊢
        omega
      | false =>
        have := ih ⟨true, st + 1⟩
        simp only [List.foldl_cons, loaderStep, Bool.false_eq_true, if_false] at this ⊢
        simp only [List.count_cons]
        simp at this ⊢
        omega
    | fail =>
      have := ih ⟨false, st⟩
      simp only [List.foldl_cons, loaderStep, List.count_cons] at this ⊢
      cases inf <;> simp at this ⊢ <;> omega
    | succeed =>
      have := ih ⟨inf, st⟩
      simp only [List.foldl_cons, loaderStep, List.count_cons] at this ⊢
      cases inf <;> simp at this ⊢ <;> omega

/-- Claim C9: across any event sequence with no failure, at most one
network request is started — exactly one as soon as some trigger occurred,
none otherwise — and in general the number of started requests never
exceeds one plus the number of failures (a new request can only start
after a failure resets the shared handle). -/
theorem C9_single_request (es : List LoadEvent) :
    (LoadEvent.fail ∉ es → LoadEvent.trigger ∈ es → (runLoader es).started = 1) ∧
    (LoadEvent.fail ∉ es → LoadEvent.trigger ∉ es → (runLoader es).started = 0) ∧
    (runLoader es).started ≤ 1 + es.count LoadEvent.fail := by
  refine ⟨?_, ?_, ?_⟩
  · intro hf ht
    show (es.foldl loaderStep ⟨false, 0⟩).started = 1
    rw [loader_run_no_fail es 0 hf]
    simp [ht]
  · intro hf ht
    show (es.foldl loaderStep ⟨false, 0⟩).started = 0
    rw [loader_run_no_fail es 0 hf]
    simp [ht]
  · have := loader_run_le es ⟨false, 0⟩
    simpa using this

/-- Witness for `C9_single_request`: three triggers around one success
issue exactly one request. -/
theorem C9_single_request_witness :
    (runLoader [LoadEvent.trigger, LoadEvent.trigger, LoadEvent.succeed,
      LoadEvent.trigger]).started = 1 :=
  (C9_single_request _).1 (by decide) (by decide)

end UseTasks
